import Mathlib

/-!
Verification development for `push_digest.py` (repository `useful_push`).

The file shallowly embeds the news aggregation/enrichment core of the
program: string normalisation helpers, the fetch/dedup/rank stage
(`fetch_feed_entries`), the enrichment policy (`should_use_openrouter`,
`enrich_news`, `translate_and_summarize`, `extract_json_from_text`,
`local_summary`), the rate-limited client (`call_openrouter`) as an
explicit timed transition system, and the env-file loader
(`load_env_file`).  External effects (HTTP, the `json.loads` library
routine, BeautifulSoup's HTML stripper, the wall clock) are passed in
as explicit parameters or modelled as explicit state, mirroring the
control flow of the Python source line by line.
-/

namespace PushDigest

/-! ## Python string helpers

`str.strip` / `str.rstrip` whitespace semantics (ASCII whitespace,
which is what the program's inputs exercise), `trim_whitespace`
(`re.sub(r"\s+", " ", text).strip()`), and Python truthiness of
strings (non-empty = truthy). -/

/-- Characters treated as whitespace by Python's `str.strip()` /
`\s` (ASCII range): space, tab, newline, carriage return, vertical
tab, form feed. -/
def pySpace (c : Char) : Bool :=
  c = ' ' || c = '\t' || c = '\n' || c = '\r' || c = Char.ofNat 11 || c = Char.ofNat 12

/-- Python `str.strip()` on a list of characters. -/
def pyStripL (l : List Char) : List Char :=
  ((l.dropWhile pySpace).reverse.dropWhile pySpace).reverse

/-- Python `str.rstrip()` on a list of characters. -/
def pyRStripL (l : List Char) : List Char :=
  (l.reverse.dropWhile pySpace).reverse

/-- Python `str.strip()` on strings. -/
def pyStripS (s : String) : String :=
  String.mk (pyStripL s.toList)

/-- Collapse each maximal run of whitespace to a single space,
mirroring `re.sub(r"\s+", " ", text)`. -/
def collapseWs : List Char → List Char
  | [] => []
  | c :: rest =>
    if pySpace c then
      ' ' :: collapseWs (rest.dropWhile pySpace)
    else
      c :: collapseWs rest
termination_by l => l.length
decreasing_by
  · exact Nat.lt_succ_of_le ((List.dropWhile_sublist _).length_le)
  · exact Nat.lt_succ_self _

/-- Embedding of `trim_whitespace` from the source:
`re.sub(r"\s+", " ", text or "").strip()`. -/
def trim_whitespace (s : String) : String :=
  String.mk (pyStripL (collapseWs s.toList))

/-- Python string truthiness combinator: `a or b` for strings. -/
def pyOr (a b : String) : String :=
  if a = "" then b else a

/-! ## Data model -/

/-- The `NewsEntry` dataclass.  `published_at` is modelled as an optional
timestamp, a natural number of time units after `datetime.min` (so the
code's `baseline = datetime.min` sort default corresponds to `0`). -/
structure NewsEntry where
  title : String
  link : String
  published_at : Option Nat
  source : Option String
  description : String
  translation : Option String := none
  summary : Option String := none
  kept_original : Bool := true
deriving DecidableEq, Repr

/-- The dedup key of an entry: the `(title, link)` pair. -/
def entryKey (e : NewsEntry) : String × String :=
  (e.title, e.link)

/-- Sort key used by `fetch_feed_entries`:
`item.published_at or baseline`, with `baseline = datetime.min` = `0`. -/
def sortKey (e : NewsEntry) : Nat :=
  e.published_at.getD 0

/-! ## Deduplicator / Ranker (`fetch_feed_entries`, lines 435-447)

The network/parse stage of `fetch_feed_entries` produces a list of
`NewsEntry`; the pure tail of the function — stable sort by
`published_at` descending, then first-occurrence dedup on
`(title, link)` fused with the `max_items` cap — is embedded here with
the parsed list as input.  Python's `sorted(..., reverse=True)` is a
stable descending sort, realised by `insertDesc`/`sortDesc`. -/

/-- The descending-by-key order used by the sort: `a` may come before
`b` iff `sortKey b ≤ sortKey a`. -/
def sortGe (a b : NewsEntry) : Prop := sortKey b ≤ sortKey a

instance : DecidableRel sortGe := fun a b => by unfold sortGe; infer_instance

instance : IsTotal NewsEntry sortGe :=
  ⟨fun a b => by unfold sortGe; exact le_total _ _⟩

instance : IsTrans NewsEntry sortGe :=
  ⟨fun _ _ _ h1 h2 => le_trans h2 h1⟩

/-- Stable sort by `sortKey` descending, as performed by
`sorted(entries, key=lambda item: item.published_at or baseline, reverse=True)`
(CPython's sort is stable; with `reverse=True`, entries of equal key
keep their input order — insertion sort with `sortGe` realises exactly
this order). -/
def sortDesc (l : List NewsEntry) : List NewsEntry :=
  List.insertionSort sortGe l

/-- The dedup-and-cap loop of `fetch_feed_entries`: walk the sorted
list, skip entries whose `(title, link)` was seen, and stop right
after the accumulated output reaches `max_items` (the element is
appended before the length check). `count` is the number of entries
already emitted. -/
def dedupCap (maxItems : Nat) : List NewsEntry → List (String × String) → Nat → List NewsEntry
  | [], _, _ => []
  | e :: rest, seen, count =>
    if entryKey e ∈ seen then
      dedupCap maxItems rest seen count
    else if maxItems ≤ count + 1 then
      [e]
    else
      e :: dedupCap maxItems rest (entryKey e :: seen) (count + 1)

/-- Pure tail of `fetch_feed_entries`: dedup the recency-sorted entry
list by `(title, link)` keeping first occurrences, capped at
`max_items`. -/
def fetch_feed_entries (entries : List NewsEntry) (maxItems : Nat) : List NewsEntry :=
  dedupCap maxItems (sortDesc entries) [] 0

/-- Cap-free first-occurrence dedup, used to state what the fused
loop computes. -/
def dedupFirst : List NewsEntry → List (String × String) → List NewsEntry
  | [], _ => []
  | e :: rest, seen =>
    if entryKey e ∈ seen then
      dedupFirst rest seen
    else
      e :: dedupFirst rest (entryKey e :: seen)

/-! ## Enrichment policy helpers -/

/-- Embedding of `contains_cjk` over `CJK_RE = re.compile("[一-鿿]")`: tests
whether any character lies in the CJK ideograph range. -/
def contains_cjk (s : String) : Bool :=
  s.toList.any (fun c => 0x4e00 ≤ c.toNat && c.toNat ≤ 0x9fff)

/-- The combined text built by `should_use_openrouter`:
`f"{entry.title} {entry.description}"`. -/
def combinedText (e : NewsEntry) : String :=
  e.title ++ " " ++ e.description

/-- Embedding of `should_use_openrouter` (lines 676-682).  `force` is the
process-wide `OPENROUTER_FORCE` flag (from `OPENROUTER_ALWAYS`). -/
def should_use_openrouter (force : Bool) (e : NewsEntry) : Bool :=
  if force then
    true
  else
    let text := pyStripS (combinedText e)
    if text = "" then true else !contains_cjk text

/-- Sentence-terminating punctuation searched by `local_summary`
(`re.search(r"[。！？!?.]", clean)`). -/
def isTerminator (c : Char) : Bool :=
  c = '。' || c = '！' || c = '？' || c = '!' || c = '?' || c = '.'

/-- The value `clean = (text or "").strip()` of `local_summary`. -/
def cleanOf (text : String) : List Char :=
  pyStripL text.toList

/-- The candidate of `local_summary`:
`clean[:sentence_end.end()] if sentence_end else clean`. -/
def candidateOf (clean : List Char) : List Char :=
  match clean.findIdx? isTerminator with
  | some i => clean.take (i + 1)
  | none => clean

/-- The truncation step of `local_summary`:
`candidate[:max_chars-1].rstrip() + "…"` when over the limit.
(All call sites in the program use `max_chars = 200`.) -/
def truncTo (max_chars : Nat) (candidate : List Char) : List Char :=
  if max_chars < candidate.length then
    pyRStripL (candidate.take (max_chars - 1)) ++ ['…']
  else candidate

/-- Embedding of `local_summary` (lines 685-697).  `title` is the Python argument
(the call sites pass `entry.title : str`, truthy iff non-empty).
Note the code truncates the candidate first and only then compares
`candidate == clean` to decide whether to prepend the title. -/
def local_summary (text : String) (title : String) (max_chars : Nat) : String :=
  let clean := cleanOf text
  if clean = [] then
    if title ≠ "" then "要点：" ++ pyStripS title else "暂无摘要。"
  else
    let candidate := truncTo max_chars (candidateOf clean)
    if title ≠ "" ∧ candidate = clean then
      String.mk ("要点：".toList ++ pyStripL title.toList ++ "——".toList ++ candidate)
    else
      String.mk ("要点：".toList ++ candidate)

/-! ## Remote-response parsing and `translate_and_summarize`

`json.loads` is an external library routine; it is passed in as a
parameter `loads : String → Option PyVal`, where `PyVal` records
exactly what the downstream Python code observes about the parsed
value: whether it is a dict, its truthiness, and — for dicts — what
`data.get("translation", "")` / `data.get("summary", "")` yield.
Likewise BeautifulSoup's `strip_html` is a parameter
`stripHtml : String → String`. -/

/-- Result of `data.get(field, "")` as consumed by `trim_whitespace`:
a string value, a falsy non-string (`None`, `0`, `[]`, … — `x or ""`
turns these into `""`), or a truthy non-string on which
`re.sub` raises `TypeError`. -/
inductive PyGet where
  | pstr (s : String)
  | falsy
  | bad
deriving DecidableEq, Repr

/-- A parsed JSON value as observed by `translate_and_summarize`. -/
inductive PyVal where
  /-- a JSON object (Python dict); `truthy` is its truthiness
  (non-emptiness), the two fields are the `get` results. -/
  | dict (truthy : Bool) (translation : PyGet) (summary : PyGet)
  /-- any non-dict JSON value, with its truthiness. -/
  | nondict (truthy : Bool)
deriving DecidableEq, Repr

/-- Python exceptions that can escape the embedded fragment. -/
inductive PyErr where
  /-- `AttributeError`: `.get` called on a non-dict. -/
  | attributeError
  /-- `TypeError`: `re.sub` applied to a truthy non-string. -/
  | typeError
deriving DecidableEq, Repr

/-- Evaluation of `trim_whitespace(data.get(field, ""))` including the exception on
truthy non-string values. -/
def trimGet : PyGet → Except PyErr String
  | .pstr s => .ok (trim_whitespace s)
  | .falsy => .ok ""
  | .bad => .error .typeError

/-- The characters `{` and `}` searched by `extract_json_from_text`. -/
def lbrace : Char := Char.ofNat 123

def rbrace : Char := Char.ofNat 125

/-- Embedding of `extract_json_from_text` (lines 499-514): try `json.loads` on the
whole text; on failure locate the first `{` and the last `}` and try
the enclosed substring; otherwise `None`. -/
def extract_json_from_text (loads : String → Option PyVal) (text : String) : Option PyVal :=
  if text = "" then none
  else
    match loads text with
    | some v => some v
    | none =>
      let cs := text.toList
      match cs.findIdx? (· = lbrace), cs.reverse.findIdx? (· = rbrace) with
      | some s, some rEnd =>
        let e := cs.length - 1 - rEnd
        if s < e then loads (String.mk ((cs.drop s).take (e - s + 1)))
        else none
      | _, _ => none

/-- Fixed placeholder installed when no usable summary was obtained. -/
def SUMMARY_PLACEHOLDER : String := "无法生成摘要，已保留原文。"

/-- The `if response: ... if data: ...` block of
`translate_and_summarize`: the values bound to `translation` and
`summary` (as Python `Optional[str]`), or the exception raised by it. -/
def parseResponse (loads : String → Option PyVal) (response : Option String) :
    Except PyErr (Option String × Option String) :=
  match response with
  | none => .ok (none, none)
  | some r =>
    match extract_json_from_text loads r with
    | none => .ok (none, none)
    | some (.nondict truthy) =>
      if truthy then .error .attributeError else .ok (none, none)
    | some (.dict truthy tr sm) =>
      if truthy then
        match trimGet tr with
        | .error err => .error err
        | .ok t =>
          match trimGet sm with
          | .error err => .error err
          | .ok s => .ok (some t, some s)
      else .ok (none, none)

/-- Embedding of `translate_and_summarize` (lines 517-555) after the external call:
`response` is what `call_openrouter` returned (`None` on definitive
failure).  The prompt construction (description truncation etc.) only
shapes the outbound request and is absorbed into the `response`
parameter.  Returns the updated entry, or the Python exception that
the code raises on a truthy non-dict JSON value / truthy non-string
field. -/
def translate_and_summarize (loads : String → Option PyVal)
    (stripHtml : String → String) (e : NewsEntry) (response : Option String) :
    Except PyErr NewsEntry :=
  match parseResponse loads response with
  | .error err => .error err
  | .ok (trOpt, smOpt) =>
    let tr1 : Option String :=
      match trOpt with
      | some t => if t = "" then some t else some (stripHtml t)
      | none => none
    let tp : String × Bool :=
      match tr1 with
      | some t => if t = "" then (pyOr e.description e.title, false) else (t, true)
      | none => (pyOr e.description e.title, false)
    let summary :=
      match smOpt with
      | some s => if s = "" then SUMMARY_PLACEHOLDER else s
      | none => SUMMARY_PLACEHOLDER
    .ok { e with
      translation := some tp.1
      summary := some summary
      kept_original := !tp.2 }

/-- The local fallback branch of `enrich_news` applied to one entry. -/
def localEnrich (e : NewsEntry) : NewsEntry :=
  let fallback_text := pyOr e.description e.title
  { e with
    translation := some fallback_text
    summary := some (local_summary fallback_text e.title 200)
    kept_original := true }

/-- One iteration of the `enrich_news` loop: the policy decision plus
the chosen branch.  The `Bool` records whether the external client was
invoked for this entry. -/
def enrichStep (force : Bool) (loads : String → Option PyVal)
    (stripHtml : String → String) (e : NewsEntry) (response : Option String) :
    Except PyErr NewsEntry × Bool :=
  if should_use_openrouter force e then
    (translate_and_summarize loads stripHtml e response, true)
  else
    (.ok (localEnrich e), false)

/-- Loop of `enrich_news` (lines 558-569), with the sequence of external-call
results supplied as `responses : Nat → Option String`; `k` counts the
external calls made so far, so entry processing consumes `responses k`
exactly when the policy routes it to the external client. -/
def enrichGo (force : Bool) (loads : String → Option PyVal)
    (stripHtml : String → String) (responses : Nat → Option String) :
    List NewsEntry → Nat → Except PyErr (List NewsEntry)
  | [], _ => .ok []
  | e :: rest, k =>
    if should_use_openrouter force e then
      match translate_and_summarize loads stripHtml e (responses k) with
      | .error err => .error err
      | .ok e' =>
        match enrichGo force loads stripHtml responses rest (k + 1) with
        | .error err => .error err
        | .ok rest' => .ok (e' :: rest')
    else
      match enrichGo force loads stripHtml responses rest k with
      | .error err => .error err
      | .ok rest' => .ok (localEnrich e :: rest')

/-- Embedding of `enrich_news` itself: the loop starts with no external calls
made. -/
def enrich_news (force : Bool) (loads : String → Option PyVal)
    (stripHtml : String → String) (responses : Nat → Option String)
    (entries : List NewsEntry) : Except PyErr (List NewsEntry) :=
  enrichGo force loads stripHtml responses entries 0

/-! ## Rate-limited enrichment client (`call_openrouter`, lines 454-496)

Time is modelled by rationals.  The process state carries the value of
`time.monotonic()` (`clock`) and the global `_last_openrouter_call`
(`last`).  Each loop iteration (attempt) is driven by one
`AttemptData` record describing the nondeterministic environment: the
network outcome, how long the POST took until response or exception,
and the value drawn by `random.uniform(0, 1)`.  Every POST issued is
recorded as a `CallEvent` carrying its start time and whether an HTTP
response came back (`_last_openrouter_call` is assigned right after
the POST returns, hence only when a response was received). -/

abbrev Time := ℚ

def OPENROUTER_MAX_CALLS_PER_MIN : ℚ := 12

def OPENROUTER_MIN_INTERVAL : ℚ := 60 / OPENROUTER_MAX_CALLS_PER_MIN

def OPENROUTER_MAX_RETRIES : Nat := 5

def OPENROUTER_BACKOFF_BASE : ℚ := 3

/-- Process-wide rate limiter state: current monotonic clock and the
global `_last_openrouter_call`. -/
structure RLState where
  clock : Time
  last : Time
deriving DecidableEq, Repr

/-- Network outcome of one POST attempt. -/
inductive Outcome where
  /-- 2xx response whose body yields `content`. -/
  | success (content : String)
  /-- HTTP 429 response. -/
  | rateLimited
  /-- some other response on which `raise_for_status` raises. -/
  | httpError
  /-- `requests.RequestException` before any response
  (timeout / connection error). -/
  | requestFailure
deriving DecidableEq, Repr

/-- Environment data for one loop iteration. -/
structure AttemptData where
  outcome : Outcome
  /-- time from issuing the POST until the response / the exception. -/
  duration : Time
  /-- the `random.uniform(0, 1)` jitter draw. -/
  jitter : Time
deriving DecidableEq, Repr

/-- One POST issued to the external endpoint: its start time, and
whether an HTTP response was received. -/
structure CallEvent where
  postTime : Time
  gotResponse : Bool
deriving DecidableEq, Repr

/-- The backoff wait `OPENROUTER_BACKOFF_BASE * (2**attempt) + random.uniform(0, 1)`. -/
def backoff (attempt : Nat) (jitter : ℚ) : ℚ :=
  OPENROUTER_BACKOFF_BASE * 2 ^ attempt + jitter

/-- One iteration of the retry loop for attempt number `i`:
pacing sleep (`elapsed = monotonic() - _last_openrouter_call`; sleep
the remainder of `OPENROUTER_MIN_INTERVAL`), the POST, the
`_last_openrouter_call` update on response, and the backoff sleep on
failure.  Returns the new state, the issued `CallEvent`, and
`some result` when the function returns (success), `none` when the
loop continues. -/
def attemptStep (s : RLState) (i : Nat) (a : AttemptData) :
    RLState × CallEvent × Option String :=
  let postStart := max s.clock (s.last + OPENROUTER_MIN_INTERVAL)
  let respTime := postStart + a.duration
  match a.outcome with
  | .success c =>
    (⟨respTime, respTime⟩, ⟨postStart, true⟩, some c)
  | .rateLimited =>
    (⟨respTime + backoff i a.jitter, respTime⟩, ⟨postStart, true⟩, none)
  | .httpError =>
    (⟨respTime + backoff i a.jitter, respTime⟩, ⟨postStart, true⟩, none)
  | .requestFailure =>
    (⟨respTime + backoff i a.jitter, s.last⟩, ⟨postStart, false⟩, none)

/-- The retry loop `for attempt in range(OPENROUTER_MAX_RETRIES)`;
`i` is the current attempt index.  Returns the final state, the list
of POSTs issued, and the returned content (`none` after exhausting all
attempts). -/
def runAttempts (s : RLState) : Nat → List AttemptData →
    RLState × List CallEvent × Option String
  | _, [] => (s, [], none)
  | i, a :: rest =>
    let t := attemptStep s i a
    match t.2.2 with
    | some c => (t.1, [t.2.1], some c)
    | none =>
      let r := runAttempts t.1 (i + 1) rest
      (r.1, t.2.1 :: r.2.1, r.2.2)

/-- Embedding of `call_openrouter`: when `OPENROUTER_KEY` is absent the function
returns `None` without touching the network or the limiter state;
otherwise it runs the retry loop (the Python loop performs exactly
`OPENROUTER_MAX_RETRIES` iterations, i.e. `attempts.length = 5`). -/
def call_openrouter (hasKey : Bool) (s : RLState) (attempts : List AttemptData) :
    RLState × List CallEvent × Option String :=
  if hasKey then runAttempts s 0 attempts else (s, [], none)

/-- One invocation of `call_openrouter` within a process run:
`preDelay` is the wall-clock time the process spends on other work
before the call. -/
structure CallSpec where
  preDelay : Time
  attempts : List AttemptData
deriving Repr

/-- A whole process run: a sequence of `call_openrouter` invocations
sharing the process-wide limiter state, with arbitrary other work in
between.  Returns the final state and all POSTs issued, in order. -/
def processRun (hasKey : Bool) (s : RLState) : List CallSpec → RLState × List CallEvent
  | [] => (s, [])
  | c :: cs =>
    let t := call_openrouter hasKey ⟨s.clock + c.preDelay, s.last⟩ c.attempts
    let r := processRun hasKey t.1 cs
    (r.1, t.2.1 ++ r.2)

/-- Physically meaningful attempt data: POSTs take nonnegative time
and the jitter is drawn from `[0, 1]`. -/
def ValidAttempt (a : AttemptData) : Prop :=
  0 ≤ a.duration ∧ 0 ≤ a.jitter ∧ a.jitter ≤ 1

/-- Physically meaningful call data. -/
def ValidCall (c : CallSpec) : Prop :=
  0 ≤ c.preDelay ∧ ∀ a ∈ c.attempts, ValidAttempt a

instance (a : AttemptData) : Decidable (ValidAttempt a) := by
  unfold ValidAttempt; infer_instance

instance (c : CallSpec) : Decidable (ValidCall c) := by
  unfold ValidCall; infer_instance

/-! ## `load_env_file` (lines 40-61)

The environment is a partial map from variable names to values
(`some ""` is a set-but-empty variable; Python's `key in os.environ`
is `isSome`).  The file contents are the list of its lines. -/

def SENSITIVE_ENV_KEYS : List String :=
  ["SERVERCHAN_KEY", "OPENROUTER_KEY", "GOOGLE_SERVICE_ACCOUNT_JSON", "GOOGLE_CALENDAR_ID"]

abbrev Env := String → Option String

/-- The cleanup `value.strip().strip('"').strip("'")`. -/
def stripValue (v : List Char) : List Char :=
  let strip1 (q : Char) (l : List Char) : List Char :=
    ((l.dropWhile (· = q)).reverse.dropWhile (· = q)).reverse
  strip1 (Char.ofNat 39) (strip1 '"' (pyStripL v))

/-- The parsing part of one loop iteration of `load_env_file`:
strip the line, skip blanks, comments and lines without `=`, split on
the first `=` and clean up key and value.  Returns `none` when the
line is skipped before the key checks. -/
def parseLine (raw : String) : Option (String × String) :=
  let line := pyStripL raw.toList
  if line = [] then none
  else if line.head? = some '#' then none
  else if ¬ ('=' ∈ line) then none
  else
    some (String.mk (pyStripL (line.takeWhile (· ≠ '='))),
          String.mk (stripValue ((line.dropWhile (· ≠ '=')).drop 1)))

/-- Processing of a single line of the env file: parse, then apply
the `key`/`os.environ`/sensitive-set guards and set the variable. -/
def processLine (env : Env) (raw : String) : Env :=
  match parseLine raw with
  | none => env
  | some (key, value) =>
    if key = "" ∨ (env key).isSome ∨ key ∈ SENSITIVE_ENV_KEYS then env
    else fun k => if k = key then some value else env k

/-- Embedding of `load_env_file` on the lines of an existing, readable file. -/
def load_env_file (env : Env) (lines : List String) : Env :=
  lines.foldl processLine env

/-! # Theorems -/

/-! ## C10: `load_env_file` never overwrites, never touches sensitive keys -/

/-- Helper: `processLine` leaves a variable unchanged when it is already set
or belongs to the sensitive set. -/
theorem processLine_keeps (env : Env) (raw k : String)
    (h : (env k).isSome ∨ k ∈ SENSITIVE_ENV_KEYS) :
    processLine env raw k = env k := by
  unfold processLine
  cases hp : parseLine raw with
  | none => rfl
  | some kv =>
    obtain ⟨key, value⟩ := kv
    show (if key = "" ∨ (env key).isSome = true ∨ key ∈ SENSITIVE_ENV_KEYS then env
      else fun k => if k = key then some value else env k) k = env k
    by_cases hg : key = "" ∨ (env key).isSome = true ∨ key ∈ SENSITIVE_ENV_KEYS
    · rw [if_pos hg]
    · rw [if_neg hg]
      by_cases hk : k = key
      · subst hk
        rcases h with h | h
        · exact absurd (Or.inr (Or.inl h)) hg
        · exact absurd (Or.inr (Or.inr h)) hg
      · simp [hk]

/-- Claim C10: `load_env_file` never overwrites an environment
variable that is already set, and never sets any key of the sensitive
set `SENSITIVE_ENV_KEYS` (`SERVERCHAN_KEY`, `OPENROUTER_KEY`,
`GOOGLE_SERVICE_ACCOUNT_JSON`, `GOOGLE_CALENDAR_ID`) from the env
file, for every file content. -/
theorem c10_env_file_never_overwrites (env : Env) (lines : List String) (k : String) :
    ((env k).isSome → load_env_file env lines k = env k) ∧
    (k ∈ SENSITIVE_ENV_KEYS → load_env_file env lines k = env k) := by
  induction lines generalizing env with
  | nil => exact ⟨fun _ => rfl, fun _ => rfl⟩
  | cons l ls ih =>
    have hstep : load_env_file env (l :: ls) = load_env_file (processLine env l) ls := rfl
    constructor
    · intro h
      have h1 : processLine env l k = env k := processLine_keeps env l k (Or.inl h)
      have h2 : (processLine env l k).isSome := by rw [h1]; exact h
      rw [hstep, (ih (processLine env l)).1 h2, h1]
    · intro h
      have h1 : processLine env l k = env k := processLine_keeps env l k (Or.inr h)
      rw [hstep, (ih (processLine env l)).2 h, h1]

/-- A concrete starting environment for the C10 witness. -/
def envC10 : Env := fun k => if k = "PATH" then some "/usr/bin" else none

/-- Concrete file contents for the C10 witness: tries to override an
existing variable and to set a sensitive key. -/
def linesC10 : List String :=
  ["# comment", "PATH=/evil", "OPENROUTER_KEY=stolen", "NEW_KEY=1"]

theorem c10_witness :
    (envC10 "PATH").isSome = true ∧
    load_env_file envC10 linesC10 "PATH" = some "/usr/bin" ∧
    "OPENROUTER_KEY" ∈ SENSITIVE_ENV_KEYS ∧
    load_env_file envC10 linesC10 "OPENROUTER_KEY" = none := by
  refine ⟨by decide, ?_, by decide, ?_⟩
  · exact (c10_env_file_never_overwrites envC10 linesC10 "PATH").1 (by decide)
  · exact (c10_env_file_never_overwrites envC10 linesC10 "OPENROUTER_KEY").2 (by decide)

/-! ## C6: the enrichment policy decision rule -/

/-- A CJK ideograph is never whitespace. -/
theorem cjk_not_space (c : Char) :
    (0x4e00 ≤ c.toNat && c.toNat ≤ 0x9fff) = true → pySpace c = false := by
  intro h
  simp only [Bool.and_eq_true, decide_eq_true_eq] at h
  by_contra hs
  have hs' : pySpace c = true := by revert hs; cases pySpace c <;> simp
  simp only [pySpace, Bool.or_eq_true, decide_eq_true_eq] at hs'
  rcases hs' with ((((h1 | h1) | h1) | h1) | h1) | h1 <;> subst h1 <;> revert h <;> decide

/-- An element not satisfying `p` survives `dropWhile p`. -/
theorem mem_dropWhile_of_not {l : List Char} {p : Char → Bool} {c : Char}
    (hc : c ∈ l) (hp : p c = false) : c ∈ l.dropWhile p := by
  rw [← List.takeWhile_append_dropWhile p l] at hc
  rcases List.mem_append.mp hc with h | h
  · exact absurd (List.mem_takeWhile_imp h) (by simp [hp])
  · exact h

/-- Stripping: `str.strip()` preserves `any p` for predicates that are never true
on whitespace. -/
theorem any_pyStripL (l : List Char) (p : Char → Bool)
    (hv : ∀ c, p c = true → pySpace c = false) :
    (pyStripL l).any p = l.any p := by
  cases htotal : l.any p with
  | true =>
    obtain ⟨c, hc, hpc⟩ := List.any_eq_true.mp htotal
    refine List.any_eq_true.mpr ⟨c, ?_, hpc⟩
    unfold pyStripL
    exact List.mem_reverse.mpr
      (mem_dropWhile_of_not
        (List.mem_reverse.mpr (mem_dropWhile_of_not hc (hv c hpc))) (hv c hpc))
  | false =>
    cases hstrip : (pyStripL l).any p with
    | false => rfl
    | true =>
      obtain ⟨c, hc, hpc⟩ := List.any_eq_true.mp hstrip
      have hcl : c ∈ l := by
        unfold pyStripL at hc
        exact (List.dropWhile_sublist _).subset
          (List.mem_reverse.mp ((List.dropWhile_sublist _).subset (List.mem_reverse.mp hc)))
      rw [List.any_eq_true.mpr ⟨c, hcl, hpc⟩] at htotal
      exact htotal

/-- Stripping does not change whether the text contains a CJK
ideograph. -/
theorem contains_cjk_pyStripS (s : String) :
    contains_cjk (pyStripS s) = contains_cjk s :=
  any_pyStripL s.toList _ cjk_not_space

/-- Claim C6: for every entry, the external client is invoked if and
only if the force-enrichment override is set, or the combined
title+description text is empty (after stripping), or that combined
text contains no CJK ideograph (U+4E00–U+9FFF); otherwise the local
fallback path is taken and no external call is attempted (the
external-response stream is left untouched for this entry). -/
theorem c6_policy_decision (force : Bool) (e : NewsEntry) :
    (should_use_openrouter force e = true ↔
      (force = true ∨ pyStripS (combinedText e) = "" ∨
        contains_cjk (combinedText e) = false)) ∧
    (should_use_openrouter force e = false →
      ∀ loads stripHtml responses rest k,
        enrichGo force loads stripHtml responses (e :: rest) k =
          (enrichGo force loads stripHtml responses rest k).map (localEnrich e :: ·)) := by
  constructor
  · unfold should_use_openrouter
    by_cases hf : force = true
    · simp [hf]
    · simp only [if_neg hf, hf, false_or]
      by_cases he : pyStripS (combinedText e) = ""
      · simp [he]
      · simp only [if_neg he, he, false_or]
        rw [contains_cjk_pyStripS]
        cases contains_cjk (combinedText e) <;> simp
  · intro h loads stripHtml responses rest k
    conv_lhs => unfold enrichGo
    rw [if_neg (by simp [h])]
    cases enrichGo force loads stripHtml responses rest k <;> rfl

/-- A purely Latin-script entry, used as the C6 witness. -/
def entryC6 : NewsEntry :=
  { title := "AI hardware"
    link := "https://example.com/a"
    published_at := some 10
    source := some "Example"
    description := "New chips announced." }

theorem c6_witness : should_use_openrouter false entryC6 = true :=
  (c6_policy_decision false entryC6).1.mpr (Or.inr (Or.inr (by decide)))

/-! ## C9: `enrich_news` preserves every field except the enrichment
fields, in order and in length -/

/-- Relation: `b` is `a` with (at most) `translation`, `summary` and
`kept_original` changed: all other fields coincide. -/
def frameEq (a b : NewsEntry) : Prop :=
  b.title = a.title ∧ b.link = a.link ∧ b.published_at = a.published_at ∧
  b.source = a.source ∧ b.description = a.description

/-- Unfolding equation of `enrichGo` on a cons cell. -/
theorem enrichGo_cons (force : Bool) (loads : String → Option PyVal)
    (stripHtml : String → String) (responses : Nat → Option String)
    (e : NewsEntry) (rest : List NewsEntry) (k : Nat) :
    enrichGo force loads stripHtml responses (e :: rest) k =
      if should_use_openrouter force e then
        match translate_and_summarize loads stripHtml e (responses k) with
        | .error err => .error err
        | .ok e' =>
          match enrichGo force loads stripHtml responses rest (k + 1) with
          | .error err => .error err
          | .ok rest' => .ok (e' :: rest')
      else
        match enrichGo force loads stripHtml responses rest k with
        | .error err => .error err
        | .ok rest' => .ok (localEnrich e :: rest') := rfl

/-- When `translate_and_summarize` returns normally, it changes only
the enrichment fields. -/
theorem translate_and_summarize_frame (loads : String → Option PyVal)
    (stripHtml : String → String) (e : NewsEntry) (response : Option String)
    (e' : NewsEntry)
    (h : translate_and_summarize loads stripHtml e response = .ok e') :
    frameEq e e' := by
  unfold translate_and_summarize at h
  cases hp : parseResponse loads response with
  | error err => rw [hp] at h; exact Except.noConfusion h
  | ok pr =>
    obtain ⟨trOpt, smOpt⟩ := pr
    rw [hp] at h
    injection h with h
    subst h
    exact ⟨rfl, rfl, rfl, rfl, rfl⟩

/-- The local fallback changes only the enrichment fields. -/
theorem localEnrich_frame (e : NewsEntry) : frameEq e (localEnrich e) :=
  ⟨rfl, rfl, rfl, rfl, rfl⟩

/-- Claim C9: whenever `enrich_news` returns a list, that list has
exactly the entries of the input, in the same order and with the same
length, and each output entry agrees with its input entry on `title`,
`link`, `published_at`, `source` and `description` (only
`translation`, `summary` and `kept_original` are changed). -/
theorem c9_enrich_news_frame (force : Bool) (loads : String → Option PyVal)
    (stripHtml : String → String) (responses : Nat → Option String)
    (entries : List NewsEntry) (k : Nat) (out : List NewsEntry)
    (h : enrichGo force loads stripHtml responses entries k = .ok out) :
    List.Forall₂ frameEq entries out := by
  induction entries generalizing k out with
  | nil =>
    injection h with h
    subst h
    exact List.Forall₂.nil
  | cons e rest ih =>
    rw [enrichGo_cons] at h
    by_cases hs : should_use_openrouter force e = true
    · rw [if_pos hs] at h
      cases ht : translate_and_summarize loads stripHtml e (responses k) with
      | error err => rw [ht] at h; exact Except.noConfusion h
      | ok e' =>
        rw [ht] at h
        cases hr : enrichGo force loads stripHtml responses rest (k + 1) with
        | error err => rw [hr] at h; exact Except.noConfusion h
        | ok rest' =>
          rw [hr] at h
          injection h with h
          subst h
          exact List.Forall₂.cons
            (translate_and_summarize_frame loads stripHtml e (responses k) e' ht) (ih _ _ hr)
    · rw [if_neg hs] at h
      cases hr : enrichGo force loads stripHtml responses rest k with
      | error err => rw [hr] at h; exact Except.noConfusion h
      | ok rest' =>
        rw [hr] at h
        injection h with h
        subst h
        exact List.Forall₂.cons (localEnrich_frame e) (ih _ _ hr)

/-- A Chinese-text entry (local path) used as the C9 witness. -/
def entryC9 : NewsEntry :=
  { title := "新闻标题"
    link := "https://example.com/zh"
    published_at := some 7
    source := some "示例"
    description := "这是一条测试新闻。后续内容。" }

theorem c9_witness : List.Forall₂ frameEq [entryC9] [localEnrich entryC9] :=
  c9_enrich_news_frame false (fun _ => none) id (fun _ => none) [entryC9] 0
    [localEnrich entryC9] (by rfl)

/-! ## C7: when `local_summary` prepends the title -/

/-- Helper: `rstrip` never lengthens a list. -/
theorem pyRStripL_length_le (l : List Char) : (pyRStripL l).length ≤ l.length := by
  unfold pyRStripL
  rw [List.length_reverse]
  calc (l.reverse.dropWhile pySpace).length ≤ l.reverse.length :=
        (List.dropWhile_sublist _).length_le
    _ = l.length := List.length_reverse l

/-- The truncated candidate fits in `m` characters. -/
theorem truncTo_length_le (cand : List Char) (m : Nat) (hm : 1 ≤ m)
    (_h : m < cand.length) :
    (pyRStripL (cand.take (m - 1)) ++ ['…']).length ≤ m := by
  rw [List.length_append]
  have h1 : (pyRStripL (cand.take (m - 1))).length ≤ (cand.take (m - 1)).length :=
    pyRStripL_length_le _
  have h2 : (cand.take (m - 1)).length ≤ m - 1 := by
    rw [List.length_take]; omega
  simp only [List.length_singleton]
  omega

/-- The code's `candidate == clean` test, rephrased positionally: the
(possibly truncated) candidate equals the whole cleaned text iff the
terminator search found nothing or found its first hit at the very
last character, and the text was short enough not to be truncated. -/
theorem truncTo_candidateOf_eq_clean (clean : List Char) (m : Nat)
    (hc : clean ≠ []) (hm : 1 ≤ m) :
    truncTo m (candidateOf clean) = clean ↔
      ((clean.findIdx? isTerminator = none ∨
        clean.findIdx? isTerminator = some (clean.length - 1)) ∧
       clean.length ≤ m) := by
  have hpos : 0 < clean.length := List.length_pos.mpr hc
  cases hidx : clean.findIdx? isTerminator with
  | none =>
    have hcand : candidateOf clean = clean := by
      simp only [candidateOf, hidx]
    rw [hcand]
    unfold truncTo
    by_cases hlen : m < clean.length
    · rw [if_pos hlen]
      constructor
      · intro he
        have hb := truncTo_length_le clean m hm hlen
        rw [he] at hb
        omega
      · rintro ⟨_, h2⟩
        omega
    · rw [if_neg hlen]
      push_neg at hlen
      exact ⟨fun _ => ⟨Or.inl rfl, hlen⟩, fun _ => rfl⟩
  | some i =>
    have hi : i < clean.length := (List.findIdx?_eq_some_iff_findIdx_eq.mp hidx).1
    have hcand : candidateOf clean = clean.take (i + 1) := by
      simp only [candidateOf, hidx]
    have hcl : (clean.take (i + 1)).length = i + 1 := by
      rw [List.length_take]; omega
    rw [hcand]
    unfold truncTo
    by_cases htr : m < (clean.take (i + 1)).length
    · rw [if_pos htr]
      constructor
      · intro he
        have hb := truncTo_length_le (clean.take (i + 1)) m hm htr
        rw [he] at hb
        omega
      · rintro ⟨_, h2⟩
        omega
    · rw [if_neg htr]
      push_neg at htr
      rw [hcl] at htr
      constructor
      · intro he
        have hl : i + 1 = clean.length := by
          rw [← hcl]
          exact congrArg List.length he
        refine ⟨Or.inr ?_, by omega⟩
        rw [← hl]
        norm_num
      · rintro ⟨h1 | h1, _⟩
        · exact absurd h1 (by simp)
        · injection h1 with h1
          have h2 : clean.length ≤ i + 1 := by omega
          exact List.take_of_length_le h2

/-- Claim C7 (amended): for non-empty cleaned body and non-empty
title, `local_summary` prepends the title exactly when the candidate
equals the entire cleaned body — that is, when the terminator search
finds nothing or finds its first terminator at the final character,
and the body was not truncated (`clean.length ≤ 200`); otherwise —
in particular whenever a terminator occurs strictly before the final
character — the result is the label marker followed by the (possibly
truncated) first sentence, without the title. -/
theorem c7_local_summary_title_rule (text title : String)
    (hc : cleanOf text ≠ []) (ht : title ≠ "") :
    local_summary text title 200 =
      if ((cleanOf text).findIdx? isTerminator = none ∨
          (cleanOf text).findIdx? isTerminator = some ((cleanOf text).length - 1)) ∧
         (cleanOf text).length ≤ 200 then
        String.mk ("要点：".toList ++ pyStripL title.toList ++ "——".toList ++ cleanOf text)
      else
        String.mk ("要点：".toList ++ truncTo 200 (candidateOf (cleanOf text))) := by
  have hiff := truncTo_candidateOf_eq_clean (cleanOf text) 200 hc (by norm_num)
  simp only [local_summary, if_neg hc]
  by_cases hP : ((cleanOf text).findIdx? isTerminator = none ∨
      (cleanOf text).findIdx? isTerminator = some ((cleanOf text).length - 1)) ∧
      (cleanOf text).length ≤ 200
  · have hcand : truncTo 200 (candidateOf (cleanOf text)) = cleanOf text := hiff.mpr hP
    rw [if_pos hP, if_pos ⟨ht, hcand⟩, hcand]
  · have hcand : ¬(truncTo 200 (candidateOf (cleanOf text)) = cleanOf text) :=
      fun he => hP (hiff.mp he)
    rw [if_neg hP, if_neg (fun hand => hcand hand.2)]

theorem c7_witness : local_summary "One. Two." "T" 200 = "要点：One." :=
  (c7_local_summary_title_rule "One. Two." "T" (by decide) (by decide)).trans (by decide)

/-- Counterexample to Claim C7 as stated: in `"Hi."` a terminator is
found (`.` at index 2, the final character), yet the result is not
"marker + first sentence without the title" — the title is prepended,
because the code's test is `candidate == clean`, not "no terminator
found". -/
theorem c7_counterexample :
    (cleanOf "Hi.").findIdx? isTerminator = some 2 ∧
    local_summary "Hi." "News" 200 = "要点：News——Hi." ∧
    ("要点：News——Hi." : String) ≠ "要点：Hi." := by
  refine ⟨by decide, by decide, by decide⟩

/-! ## C3 / C4 / C8: dedup, ordering and cap of `fetch_feed_entries` -/

/-- The fused dedup-and-cap loop computes a `take` of the cap-free
first-occurrence dedup, as long as the cap has not been reached yet. -/
theorem dedupCap_eq_take (maxItems : Nat) :
    ∀ (l : List NewsEntry) (seen : List (String × String)) (count : Nat),
      count < maxItems →
      dedupCap maxItems l seen count = (dedupFirst l seen).take (maxItems - count) := by
  intro l
  induction l with
  | nil => intro seen count _; simp [dedupCap, dedupFirst]
  | cons e rest ih =>
    intro seen count hcount
    by_cases hseen : entryKey e ∈ seen
    · simp only [dedupCap, dedupFirst, if_pos hseen]
      exact ih seen count hcount
    · simp only [dedupCap, dedupFirst, if_neg hseen]
      by_cases hbreak : maxItems ≤ count + 1
      · rw [if_pos hbreak]
        have h1 : maxItems - count = 1 := by omega
        rw [h1]
        rfl
      · rw [if_neg hbreak]
        have h1 : maxItems - count = (maxItems - (count + 1)) + 1 := by omega
        rw [h1, List.take_succ_cons, ih (entryKey e :: seen) (count + 1) (by omega)]

/-- The dedup keeps a subsequence of its input. -/
theorem dedupFirst_sublist :
    ∀ (l : List NewsEntry) (seen : List (String × String)),
      (dedupFirst l seen).Sublist l := by
  intro l
  induction l with
  | nil => intro seen; simp [dedupFirst]
  | cons e rest ih =>
    intro seen
    by_cases hseen : entryKey e ∈ seen
    · simp only [dedupFirst, if_pos hseen]
      exact (ih seen).cons e
    · simp only [dedupFirst, if_neg hseen]
      exact (ih (entryKey e :: seen)).cons₂ e

/-- Whatever the capped loop emits also survives the cap-free dedup. -/
theorem dedupCap_sublist_dedupFirst (maxItems : Nat) :
    ∀ (l : List NewsEntry) (seen : List (String × String)) (count : Nat),
      (dedupCap maxItems l seen count).Sublist (dedupFirst l seen) := by
  intro l
  induction l with
  | nil => intro seen count; simp [dedupCap, dedupFirst]
  | cons e rest ih =>
    intro seen count
    by_cases hseen : entryKey e ∈ seen
    · simp only [dedupCap, dedupFirst, if_pos hseen]
      exact ih seen count
    · simp only [dedupCap, dedupFirst, if_neg hseen]
      by_cases hbreak : maxItems ≤ count + 1
      · rw [if_pos hbreak]
        exact (List.nil_sublist _).cons₂ e
      · rw [if_neg hbreak]
        exact (ih (entryKey e :: seen) (count + 1)).cons₂ e

/-- Per-key characterisation of the first-occurrence dedup: for every
key, the dedup output keeps exactly the first input entry carrying
that key (none if the key is in the seen set). -/
theorem dedupFirst_filter (k : String × String) :
    ∀ (l : List NewsEntry) (seen : List (String × String)),
      (dedupFirst l seen).filter (fun e => entryKey e == k) =
        if k ∈ seen then [] else (l.filter (fun e => entryKey e == k)).take 1 := by
  intro l
  induction l with
  | nil => intro seen; simp [dedupFirst]
  | cons e rest ih =>
    intro seen
    by_cases hseen : entryKey e ∈ seen
    · simp only [dedupFirst, if_pos hseen]
      by_cases hk : k ∈ seen
      · rw [ih seen, if_pos hk, if_pos hk]
      · have hne : ¬(entryKey e == k) = true := by
          simp only [beq_iff_eq]
          exact fun he => hk (he ▸ hseen)
        rw [ih seen, if_neg hk, if_neg hk, List.filter_cons, if_neg hne]
    · simp only [dedupFirst, if_neg hseen]
      by_cases hk : entryKey e = k
      · have hkseen : k ∉ seen := fun hks => hseen (hk ▸ hks)
        have hpe : (entryKey e == k) = true := by simp [hk]
        rw [List.filter_cons, if_pos hpe, List.filter_cons, if_pos hpe,
          ih (entryKey e :: seen), if_pos (by rw [← hk]; exact List.mem_cons_self _ _),
          if_neg hkseen]
        rfl
      · have hpe : ¬(entryKey e == k) = true := by simp [hk]
        rw [List.filter_cons, if_neg hpe, List.filter_cons, if_neg hpe,
          ih (entryKey e :: seen)]
        have hmem : (k ∈ entryKey e :: seen) ↔ k ∈ seen := by
          simp only [List.mem_cons]
          constructor
          · rintro (h | h)
            · exact absurd h.symm hk
            · exact h
          · exact Or.inr
        by_cases hks : k ∈ seen
        · rw [if_pos (hmem.mpr hks), if_pos hks]
        · rw [if_neg (fun hh => hks (hmem.mp hh)), if_neg hks]

/-- Entries surviving `dedupFirst` carry keys outside `seen`, and
their keys are pairwise distinct. -/
theorem dedupFirst_keys :
    ∀ (l : List NewsEntry) (seen : List (String × String)),
      (∀ e ∈ dedupFirst l seen, entryKey e ∉ seen) ∧
      List.Pairwise (fun a b => entryKey a ≠ entryKey b) (dedupFirst l seen) := by
  intro l
  induction l with
  | nil =>
    intro seen
    exact ⟨fun e he => absurd he (List.not_mem_nil e), List.Pairwise.nil⟩
  | cons e rest ih =>
    intro seen
    by_cases hseen : entryKey e ∈ seen
    · simp only [dedupFirst, if_pos hseen]
      exact ih seen
    · simp only [dedupFirst, if_neg hseen]
      constructor
      · intro e' he'
        rcases List.mem_cons.mp he' with h | h
        · subst h; exact hseen
        · intro hmem
          exact (ih (entryKey e :: seen)).1 e' h (List.mem_cons_of_mem _ hmem)
      · refine List.Pairwise.cons ?_ (ih (entryKey e :: seen)).2
        intro b hb
        have := (ih (entryKey e :: seen)).1 b hb
        intro hEq
        exact this (hEq ▸ List.mem_cons_self _ _)

/-- Helper: `sortDesc` is sorted descending by the sort key. -/
theorem sortDesc_pairwise (l : List NewsEntry) :
    List.Pairwise sortGe (sortDesc l) :=
  List.sorted_insertionSort sortGe l

/-- Helper: `sortDesc` permutes its input. -/
theorem sortDesc_perm (l : List NewsEntry) : (sortDesc l).Perm l :=
  List.perm_insertionSort sortGe l

/-- Counterexample entries: two duplicates of the same `(title, link)`
key with different timestamps. -/
def entryOld : NewsEntry :=
  { title := "X", link := "https://a", published_at := some 1,
    source := none, description := "older copy" }

def entryNew : NewsEntry :=
  { title := "X", link := "https://a", published_at := some 2,
    source := none, description := "newer copy" }

/-- Counterexample to Claim C3 as stated: `entryOld` occurs first in
the input and `entryNew` — a duplicate of it — occurs later, yet the
function keeps `entryNew` and drops `entryOld`: deduplication keeps
the first occurrence in the recency-sorted order, not in input
order. -/
theorem c3_counterexample :
    entryKey entryOld = entryKey entryNew ∧ entryOld ≠ entryNew ∧
    fetch_feed_entries [entryOld, entryNew] 20 = [entryNew] := by
  refine ⟨by decide, by decide, by decide⟩

/-- Claim C3 (amended): the output is the recency-sorted input
deduplicated by first occurrence **in sorted order** and then capped;
for every `(title, link)` key, the dedup keeps exactly the first
sorted-order entry with that key (so entries with equal title but
different link are all kept, up to the cap). -/
theorem c3_dedup_sorted_first (entries : List NewsEntry) (maxItems : Nat)
    (h : 1 ≤ maxItems) :
    fetch_feed_entries entries maxItems =
      (dedupFirst (sortDesc entries) []).take maxItems ∧
    ∀ k : String × String,
      (dedupFirst (sortDesc entries) []).filter (fun e => entryKey e == k) =
        ((sortDesc entries).filter (fun e => entryKey e == k)).take 1 := by
  constructor
  · have h1 := dedupCap_eq_take maxItems (sortDesc entries) [] 0 (by omega)
    rw [Nat.sub_zero] at h1
    exact h1
  · intro k
    rw [dedupFirst_filter k (sortDesc entries) [], if_neg (List.not_mem_nil k)]

theorem c3_witness :
    fetch_feed_entries [entryOld, entryNew] 20 =
      (dedupFirst (sortDesc [entryOld, entryNew]) []).take 20 ∧
    (dedupFirst (sortDesc [entryOld, entryNew]) []).filter
        (fun e => entryKey e == ("X", "https://a")) =
      ((sortDesc [entryOld, entryNew]).filter
        (fun e => entryKey e == ("X", "https://a"))).take 1 :=
  ⟨(c3_dedup_sorted_first [entryOld, entryNew] 20 (by decide)).1,
   (c3_dedup_sorted_first [entryOld, entryNew] 20 (by decide)).2 ("X", "https://a")⟩

/-- Counterexample to Claim C4 as stated ("for every input … length at
most the cap"): with `max_items = 0` the loop appends an entry before
checking the cap, so one entry is returned. -/
theorem c4_counterexample :
    fetch_feed_entries [entryOld] 0 = [entryOld] ∧
    ¬((fetch_feed_entries [entryOld] 0).length ≤ 0) := by
  refine ⟨by decide, by decide⟩

/-- Claim C4 (amended): for every input and every cap `≥ 1` (every
cap configured in the program is 20), the output is sorted by
`published_at` descending with missing timestamps keyed to the
minimum instant (`sortGe`), contains no two entries with equal
`(title, link)`, and has length at most the cap. -/
theorem c4_output_invariants (entries : List NewsEntry) (maxItems : Nat)
    (h : 1 ≤ maxItems) :
    List.Pairwise sortGe (fetch_feed_entries entries maxItems) ∧
    List.Pairwise (fun a b => entryKey a ≠ entryKey b)
      (fetch_feed_entries entries maxItems) ∧
    (fetch_feed_entries entries maxItems).length ≤ maxItems := by
  have heq : fetch_feed_entries entries maxItems =
      (dedupFirst (sortDesc entries) []).take maxItems := by
    have h1 := dedupCap_eq_take maxItems (sortDesc entries) [] 0 (by omega)
    rw [Nat.sub_zero] at h1
    exact h1
  have hsub : (fetch_feed_entries entries maxItems).Sublist (sortDesc entries) := by
    rw [heq]
    exact (List.take_sublist _ _).trans (dedupFirst_sublist (sortDesc entries) [])
  refine ⟨?_, ?_, ?_⟩
  · exact List.Pairwise.sublist hsub (sortDesc_pairwise entries)
  · rw [heq]
    exact List.Pairwise.sublist (List.take_sublist _ _)
      (dedupFirst_keys (sortDesc entries) []).2
  · rw [heq, List.length_take]
    exact min_le_left _ _

theorem c4_witness :
    List.Pairwise sortGe (fetch_feed_entries [entryOld, entryNew] 20) ∧
    List.Pairwise (fun a b => entryKey a ≠ entryKey b)
      (fetch_feed_entries [entryOld, entryNew] 20) ∧
    (fetch_feed_entries [entryOld, entryNew] 20).length ≤ 20 :=
  c4_output_invariants [entryOld, entryNew] 20 (by decide)

/-- Claim C8: if an entry is kept in the output, its timestamp (with
missing timestamps keyed to the minimum instant) is maximal among all
input entries sharing its `(title, link)` key — sorting by recency
happens before duplicates are removed, so the kept duplicate is the
most recent one. -/
theorem c8_kept_duplicate_most_recent (entries : List NewsEntry) (maxItems : Nat)
    (e e' : NewsEntry) (he : e ∈ fetch_feed_entries entries maxItems)
    (he' : e' ∈ entries) (hk : entryKey e' = entryKey e) :
    sortKey e' ≤ sortKey e := by
  have h1 : e ∈ dedupFirst (sortDesc entries) [] :=
    (dedupCap_sublist_dedupFirst maxItems (sortDesc entries) [] 0).subset he
  have h2 : e ∈ (dedupFirst (sortDesc entries) []).filter
      (fun x => entryKey x == entryKey e) :=
    List.mem_filter.mpr ⟨h1, by simp⟩
  rw [dedupFirst_filter (entryKey e) (sortDesc entries) [],
    if_neg (List.not_mem_nil _)] at h2
  have he'2 : e' ∈ (sortDesc entries).filter (fun x => entryKey x == entryKey e) :=
    List.mem_filter.mpr
      ⟨((sortDesc_perm entries).mem_iff).mpr he', by simp [hk]⟩
  have hs : List.Pairwise sortGe
      ((sortDesc entries).filter (fun x => entryKey x == entryKey e)) :=
    List.Pairwise.sublist (List.filter_sublist _) (sortDesc_pairwise entries)
  cases hF : (sortDesc entries).filter (fun x => entryKey x == entryKey e) with
  | nil => rw [hF] at h2; exact absurd h2 (by simp)
  | cons a t =>
    rw [hF] at h2 hs he'2
    have hea : e = a := by
      simp only [List.take_succ_cons, List.take_zero] at h2
      exact List.mem_singleton.mp h2
    rcases List.mem_cons.mp he'2 with h | h
    · rw [hea, h]
    · have := List.rel_of_pairwise_cons hs h
      rw [hea]
      exact this

/-- Witness for C8 at a concrete duplicated input. -/
theorem c8_witness : sortKey entryOld ≤ sortKey entryNew :=
  c8_kept_duplicate_most_recent [entryOld, entryNew] 20 entryNew entryOld
    (by decide) (by decide) (by decide)

/-! ## C1 / C2: the rate limiter -/

/-- Pacing property between two consecutive POSTs: when the earlier
POST received a response, at least `OPENROUTER_MIN_INTERVAL` elapses
before the next POST is issued. -/
def RLim (ev1 ev2 : CallEvent) : Prop :=
  ev1.gotResponse = true → ev1.postTime + OPENROUTER_MIN_INTERVAL ≤ ev2.postTime

theorem min_interval_eq : OPENROUTER_MIN_INTERVAL = 5 := by
  norm_num [OPENROUTER_MIN_INTERVAL, OPENROUTER_MAX_CALLS_PER_MIN]

theorem min_interval_nonneg : 0 ≤ OPENROUTER_MIN_INTERVAL := by
  rw [min_interval_eq]; norm_num

theorem backoff_nonneg (i : Nat) (j : ℚ) (hj : 0 ≤ j) : 0 ≤ backoff i j :=
  add_nonneg
    (mul_nonneg (by norm_num [OPENROUTER_BACKOFF_BASE]) (pow_nonneg (by norm_num) i)) hj

/-- Invariants of the retry loop (for physically valid attempt data):
the recorded timestamp never decreases; consecutive POSTs satisfy the
pacing property; the first POST is issued at
`max(clock, last + interval)`; and if the final POST received a
response, its start time is below the final recorded timestamp. -/
theorem runAttempts_spec :
    ∀ (as : List AttemptData) (s : RLState) (i : Nat),
      (∀ a ∈ as, ValidAttempt a) →
      s.last ≤ (runAttempts s i as).1.last ∧
      List.Chain' RLim (runAttempts s i as).2.1 ∧
      (∀ ev ∈ (runAttempts s i as).2.1.head?,
        ev.postTime = max s.clock (s.last + OPENROUTER_MIN_INTERVAL)) ∧
      (∀ ev ∈ (runAttempts s i as).2.1.getLast?,
        ev.gotResponse = true → ev.postTime ≤ (runAttempts s i as).1.last) := by
  intro as
  induction as with
  | nil =>
    intro s i _
    refine ⟨le_refl _, List.chain'_nil, ?_, ?_⟩ <;>
      intro ev hev <;> simp [runAttempts] at hev
  | cons a rest ih =>
    intro s i hv
    have hva : ValidAttempt a := hv a (List.mem_cons_self _ _)
    have hvr : ∀ x ∈ rest, ValidAttempt x := fun x hx => hv x (List.mem_cons_of_mem _ hx)
    obtain ⟨hd0, hj0, _⟩ := hva
    have hlastp : s.last ≤ max s.clock (s.last + OPENROUTER_MIN_INTERVAL) := by
      have h1 := min_interval_nonneg
      have h2 := le_max_right s.clock (s.last + OPENROUTER_MIN_INTERVAL)
      linarith
    obtain ⟨o, d, j⟩ := a
    have hd : (0 : ℚ) ≤ d := hd0
    have hj : (0 : ℚ) ≤ j := hj0
    cases o with
    | success c =>
      simp only [runAttempts, attemptStep]
      refine ⟨by linarith, List.chain'_singleton _, ?_, ?_⟩
      · intro ev hev
        simp only [List.head?_cons, Option.mem_some_iff] at hev
        cases hev
        rfl
      · intro ev hev _
        simp only [List.getLast?_singleton, Option.mem_some_iff] at hev
        cases hev
        show max s.clock (s.last + OPENROUTER_MIN_INTERVAL) ≤
          max s.clock (s.last + OPENROUTER_MIN_INTERVAL) + d
        linarith
    | rateLimited =>
      simp only [runAttempts, attemptStep]
      obtain ⟨ih1, ih2, ih3, ih4⟩ :=
        ih ⟨max s.clock (s.last + OPENROUTER_MIN_INTERVAL) + d + backoff i j,
            max s.clock (s.last + OPENROUTER_MIN_INTERVAL) + d⟩ (i + 1) hvr
      have ih1' : max s.clock (s.last + OPENROUTER_MIN_INTERVAL) + d ≤
          (runAttempts
            ⟨max s.clock (s.last + OPENROUTER_MIN_INTERVAL) + d + backoff i j,
              max s.clock (s.last + OPENROUTER_MIN_INTERVAL) + d⟩ (i + 1) rest).1.last := ih1
      have ih3' : ∀ ev ∈ (runAttempts
            ⟨max s.clock (s.last + OPENROUTER_MIN_INTERVAL) + d + backoff i j,
              max s.clock (s.last + OPENROUTER_MIN_INTERVAL) + d⟩ (i + 1) rest).2.1.head?,
          ev.postTime = max (max s.clock (s.last + OPENROUTER_MIN_INTERVAL) + d + backoff i j)
            (max s.clock (s.last + OPENROUTER_MIN_INTERVAL) + d + OPENROUTER_MIN_INTERVAL) := ih3
      refine ⟨by linarith, ?_, ?_, ?_⟩
      · refine List.chain'_cons'.mpr ⟨?_, ih2⟩
        intro y hy
        intro _
        have h3 := ih3' y hy
        have h4 := le_max_right
          (max s.clock (s.last + OPENROUTER_MIN_INTERVAL) + d + backoff i j)
          (max s.clock (s.last + OPENROUTER_MIN_INTERVAL) + d + OPENROUTER_MIN_INTERVAL)
        show (⟨max s.clock (s.last + OPENROUTER_MIN_INTERVAL), true⟩ :
          CallEvent).postTime + OPENROUTER_MIN_INTERVAL ≤ y.postTime
        rw [h3]
        show max s.clock (s.last + OPENROUTER_MIN_INTERVAL) + OPENROUTER_MIN_INTERVAL ≤ _
        linarith
      · intro ev hev
        simp only [List.head?_cons, Option.mem_some_iff] at hev
        cases hev
        rfl
      · intro ev hev hresp
        cases hevs : (runAttempts
            ⟨max s.clock (s.last + OPENROUTER_MIN_INTERVAL) + d + backoff i j,
              max s.clock (s.last + OPENROUTER_MIN_INTERVAL) + d⟩ (i + 1) rest).2.1 with
        | nil =>
          rw [hevs] at hev
          simp only [List.getLast?_singleton, Option.mem_some_iff] at hev
          cases hev
          show max s.clock (s.last + OPENROUTER_MIN_INTERVAL) ≤ _
          linarith
        | cons e2 t =>
          rw [hevs] at hev
          rw [List.getLast?_cons_cons] at hev
          exact ih4 ev (by rw [hevs]; exact hev) hresp
    | httpError =>
      simp only [runAttempts, attemptStep]
      obtain ⟨ih1, ih2, ih3, ih4⟩ :=
        ih ⟨max s.clock (s.last + OPENROUTER_MIN_INTERVAL) + d + backoff i j,
            max s.clock (s.last + OPENROUTER_MIN_INTERVAL) + d⟩ (i + 1) hvr
      have ih1' : max s.clock (s.last + OPENROUTER_MIN_INTERVAL) + d ≤
          (runAttempts
            ⟨max s.clock (s.last + OPENROUTER_MIN_INTERVAL) + d + backoff i j,
              max s.clock (s.last + OPENROUTER_MIN_INTERVAL) + d⟩ (i + 1) rest).1.last := ih1
      have ih3' : ∀ ev ∈ (runAttempts
            ⟨max s.clock (s.last + OPENROUTER_MIN_INTERVAL) + d + backoff i j,
              max s.clock (s.last + OPENROUTER_MIN_INTERVAL) + d⟩ (i + 1) rest).2.1.head?,
          ev.postTime = max (max s.clock (s.last + OPENROUTER_MIN_INTERVAL) + d + backoff i j)
            (max s.clock (s.last + OPENROUTER_MIN_INTERVAL) + d + OPENROUTER_MIN_INTERVAL) := ih3
      refine ⟨by linarith, ?_, ?_, ?_⟩
      · refine List.chain'_cons'.mpr ⟨?_, ih2⟩
        intro y hy
        intro _
        have h3 := ih3' y hy
        have h4 := le_max_right
          (max s.clock (s.last + OPENROUTER_MIN_INTERVAL) + d + backoff i j)
          (max s.clock (s.last + OPENROUTER_MIN_INTERVAL) + d + OPENROUTER_MIN_INTERVAL)
        show (⟨max s.clock (s.last + OPENROUTER_MIN_INTERVAL), true⟩ :
          CallEvent).postTime + OPENROUTER_MIN_INTERVAL ≤ y.postTime
        rw [h3]
        show max s.clock (s.last + OPENROUTER_MIN_INTERVAL) + OPENROUTER_MIN_INTERVAL ≤ _
        linarith
      · intro ev hev
        simp only [List.head?_cons, Option.mem_some_iff] at hev
        cases hev
        rfl
      · intro ev hev hresp
        cases hevs : (runAttempts
            ⟨max s.clock (s.last + OPENROUTER_MIN_INTERVAL) + d + backoff i j,
              max s.clock (s.last + OPENROUTER_MIN_INTERVAL) + d⟩ (i + 1) rest).2.1 with
        | nil =>
          rw [hevs] at hev
          simp only [List.getLast?_singleton, Option.mem_some_iff] at hev
          cases hev
          show max s.clock (s.last + OPENROUTER_MIN_INTERVAL) ≤ _
          linarith
        | cons e2 t =>
          rw [hevs] at hev
          rw [List.getLast?_cons_cons] at hev
          exact ih4 ev (by rw [hevs]; exact hev) hresp
    | requestFailure =>
      simp only [runAttempts, attemptStep]
      obtain ⟨ih1, ih2, ih3, ih4⟩ :=
        ih ⟨max s.clock (s.last + OPENROUTER_MIN_INTERVAL) + d + backoff i j, s.last⟩
          (i + 1) hvr
      have ih1' : s.last ≤
          (runAttempts
            ⟨max s.clock (s.last + OPENROUTER_MIN_INTERVAL) + d + backoff i j, s.last⟩
            (i + 1) rest).1.last := ih1
      refine ⟨by linarith, ?_, ?_, ?_⟩
      · refine List.chain'_cons'.mpr ⟨?_, ih2⟩
        intro y _
        intro hresp
        exact absurd hresp (by simp)
      · intro ev hev
        simp only [List.head?_cons, Option.mem_some_iff] at hev
        cases hev
        rfl
      · intro ev hev hresp
        cases hevs : (runAttempts
            ⟨max s.clock (s.last + OPENROUTER_MIN_INTERVAL) + d + backoff i j, s.last⟩
            (i + 1) rest).2.1 with
        | nil =>
          rw [hevs] at hev
          simp only [List.getLast?_singleton, Option.mem_some_iff] at hev
          cases hev
          exact absurd hresp (by simp)
        | cons e2 t =>
          rw [hevs] at hev
          rw [List.getLast?_cons_cons] at hev
          exact ih4 ev (by rw [hevs]; exact hev) hresp



/-- Invariants of a whole process run: the timestamp never decreases,
consecutive POSTs (also across different `call_openrouter`
invocations) satisfy the pacing property, the first POST starts no
earlier than `last + interval`, and a final responded POST is recorded
in the final timestamp. -/
theorem processRun_spec :
    ∀ (calls : List CallSpec) (s : RLState) (hk : Bool),
      (∀ c ∈ calls, ValidCall c) →
      s.last ≤ (processRun hk s calls).1.last ∧
      List.Chain' RLim (processRun hk s calls).2 ∧
      (∀ ev ∈ (processRun hk s calls).2.head?,
        s.last + OPENROUTER_MIN_INTERVAL ≤ ev.postTime) ∧
      (∀ ev ∈ (processRun hk s calls).2.getLast?,
        ev.gotResponse = true → ev.postTime ≤ (processRun hk s calls).1.last) := by
  intro calls
  induction calls with
  | nil =>
    intro s hk _
    refine ⟨le_refl _, List.chain'_nil, ?_, ?_⟩ <;>
      intro ev hev <;> simp [processRun] at hev
  | cons c cs ih =>
    intro s hk hv
    have hvc : ValidCall c := hv c (List.mem_cons_self _ _)
    have hvcs : ∀ x ∈ cs, ValidCall x := fun x hx => hv x (List.mem_cons_of_mem _ hx)
    obtain ⟨_, hatt⟩ := hvc
    cases hk with
    | false =>
      obtain ⟨ih1, ih2, ih3, ih4⟩ := ih ⟨s.clock + c.preDelay, s.last⟩ false hvcs
      have ih1' : s.last ≤ (processRun false ⟨s.clock + c.preDelay, s.last⟩ cs).1.last := ih1
      have ih3' : ∀ ev ∈ (processRun false ⟨s.clock + c.preDelay, s.last⟩ cs).2.head?,
          s.last + OPENROUTER_MIN_INTERVAL ≤ ev.postTime := ih3
      have hred : processRun false s (c :: cs) =
          processRun false ⟨s.clock + c.preDelay, s.last⟩ cs := by
        rcases hP : processRun false ⟨s.clock + c.preDelay, s.last⟩ cs with ⟨a, b⟩
        simp [processRun, call_openrouter, hP]
      rw [hred]
      exact ⟨ih1', ih2, ih3', ih4⟩
    | true =>
      obtain ⟨A1, A2, A3, A4⟩ :=
        runAttempts_spec c.attempts ⟨s.clock + c.preDelay, s.last⟩ 0 hatt
      obtain ⟨B1, B2, B3, B4⟩ :=
        ih (runAttempts ⟨s.clock + c.preDelay, s.last⟩ 0 c.attempts).1 true hvcs
      have A1' : s.last ≤
          (runAttempts ⟨s.clock + c.preDelay, s.last⟩ 0 c.attempts).1.last := A1
      have A3' : ∀ ev ∈ (runAttempts ⟨s.clock + c.preDelay, s.last⟩ 0 c.attempts).2.1.head?,
          ev.postTime =
            max (s.clock + c.preDelay) (s.last + OPENROUTER_MIN_INTERVAL) := A3
      have hred : processRun true s (c :: cs) =
          ((processRun true (runAttempts ⟨s.clock + c.preDelay, s.last⟩ 0 c.attempts).1 cs).1,
            (runAttempts ⟨s.clock + c.preDelay, s.last⟩ 0 c.attempts).2.1 ++
              (processRun true
                (runAttempts ⟨s.clock + c.preDelay, s.last⟩ 0 c.attempts).1 cs).2) := rfl
      rw [hred]
      refine ⟨le_trans A1' B1, ?_, ?_, ?_⟩
      · refine List.Chain'.append A2 B2 ?_
        intro x hx y hy hresp
        have h4 := A4 x hx hresp
        have h5 := B3 y hy
        linarith
      · intro ev hev
        rw [List.head?_append] at hev
        cases hA : (runAttempts ⟨s.clock + c.preDelay, s.last⟩ 0 c.attempts).2.1.head? with
        | some x =>
          rw [hA, Option.or_some] at hev
          have hx : ev = x := (Option.mem_some_iff.mp hev).symm
          subst hx
          have h3 := A3' ev (by rw [hA]; exact rfl)
          rw [h3]
          have h4 := le_max_right (s.clock + c.preDelay) (s.last + OPENROUTER_MIN_INTERVAL)
          linarith
        | none =>
          rw [hA, Option.none_or] at hev
          have h5 := B3 ev hev
          linarith
      · intro ev hev hresp
        rw [List.getLast?_append] at hev
        cases hB : (processRun true
            (runAttempts ⟨s.clock + c.preDelay, s.last⟩ 0 c.attempts).1 cs).2.getLast? with
        | some y =>
          rw [hB, Option.or_some] at hev
          have hy : ev = y := (Option.mem_some_iff.mp hev).symm
          subst hy
          exact B4 ev (by rw [hB]; exact rfl) hresp
        | none =>
          rw [hB, Option.none_or] at hev
          have h4 := A4 ev hev hresp
          linarith

/-- Claim C1 (amended): in every process run with physically valid
timing data, any two consecutive POSTs to the external endpoint where
the earlier POST received an HTTP response are separated by at least
`60 / OPENROUTER_MAX_CALLS_PER_MIN = 5` seconds of wall-clock time —
call_openrouter computes the time since the recorded timestamp before
every POST and sleeps the remainder of the minimum interval.  (When
the earlier POST fails without a response the timestamp is not
updated, and the gap can be smaller; see the counterexample.) -/
theorem c1_min_interval_between_responded_posts (hk : Bool) (s : RLState)
    (calls : List CallSpec) (hv : ∀ c ∈ calls, ValidCall c) :
    List.Chain' RLim (processRun hk s calls).2 :=
  (processRun_spec calls s hk hv).2.1

/-- Two calls, the first throttled once by a 429, used as C1 witness. -/
def callsC1 : List CallSpec :=
  [⟨0, [⟨.rateLimited, 0, 1⟩, ⟨.success "ok", 1, 0⟩]⟩,
   ⟨1, [⟨.success "done", 0, 0⟩]⟩]

theorem c1_witness : List.Chain' RLim (processRun true ⟨0, 0⟩ callsC1).2 :=
  c1_min_interval_between_responded_posts true ⟨0, 0⟩ callsC1
    (by simp [callsC1, ValidCall, ValidAttempt])

/-- One call whose first attempt is a connection failure. -/
def callsCex : List CallSpec :=
  [⟨0, [⟨.requestFailure, 0, 0⟩, ⟨.success "x", 0, 0⟩]⟩]

/-- Counterexample to Claim C1 as stated: a first attempt that fails
without a response (timeout / connection error) does not update
`_last_openrouter_call`, so the following attempt is paced only by the
backoff sleep (3·2⁰ = 3 s here) — the two consecutive POSTs happen at
times 5 and 8, violating the claimed 5-second minimum. -/
theorem c1_counterexample :
    (∀ c ∈ callsCex, ValidCall c) ∧
    (processRun true ⟨0, 0⟩ callsCex).2 = [⟨5, false⟩, ⟨8, true⟩] ∧
    ¬ List.Chain' (fun ev1 ev2 => ev1.postTime + OPENROUTER_MIN_INTERVAL ≤ ev2.postTime)
      (processRun true ⟨0, 0⟩ callsCex).2 := by
  have hev2 : (processRun true ⟨0, 0⟩ callsCex).2 = [⟨5, false⟩, ⟨8, true⟩] := by
    show [(⟨max (0 + 0) (0 + OPENROUTER_MIN_INTERVAL), false⟩ : CallEvent),
      ⟨max (max (0 + 0) (0 + OPENROUTER_MIN_INTERVAL) + 0 + backoff 0 0)
        (0 + OPENROUTER_MIN_INTERVAL), true⟩] ++ [] = [⟨5, false⟩, ⟨8, true⟩]
    rw [min_interval_eq]
    norm_num [max_def, backoff, OPENROUTER_BACKOFF_BASE]
  refine ⟨by simp [callsCex, ValidCall, ValidAttempt], hev2, ?_⟩
  rw [hev2]
  intro hch
  obtain ⟨h1, _⟩ := List.chain'_cons.mp hch
  have h2 : (5 : ℚ) + OPENROUTER_MIN_INTERVAL ≤ 8 := h1
  rw [min_interval_eq] at h2
  linarith

/-- Claim C2 (amended): the pacing reads `_last_openrouter_call`
before every attempt (the POST starts at `max(clock, last + 5)`), and
the timestamp is updated to the attempt's completion time after every
attempt that receives an HTTP response — success, 429, or another
error status — but it is NOT updated when the attempt fails without a
response (timeout or connection error): it then keeps its previous
value. -/
theorem c2_timestamp_update_rule (s : RLState) (i : Nat) (a : AttemptData) :
    (attemptStep s i a).2.1.postTime = max s.clock (s.last + OPENROUTER_MIN_INTERVAL) ∧
    (a.outcome ≠ .requestFailure →
      (attemptStep s i a).1.last = (attemptStep s i a).2.1.postTime + a.duration) ∧
    (a.outcome = .requestFailure → (attemptStep s i a).1.last = s.last) := by
  obtain ⟨o, d, j⟩ := a
  cases o <;> simp [attemptStep]

theorem c2_witness :
    (attemptStep ⟨10, 0⟩ 0 ⟨.rateLimited, 1, 0⟩).1.last =
      (attemptStep ⟨10, 0⟩ 0 ⟨.rateLimited, 1, 0⟩).2.1.postTime + 1 ∧
    (attemptStep ⟨10, 0⟩ 0 ⟨.requestFailure, 1, 0⟩).1.last = 0 :=
  ⟨(c2_timestamp_update_rule ⟨10, 0⟩ 0 ⟨.rateLimited, 1, 0⟩).2.1 (by simp),
   (c2_timestamp_update_rule ⟨10, 0⟩ 0 ⟨.requestFailure, 1, 0⟩).2.2 rfl⟩

/-- Counterexample to Claim C2 as stated: a single attempt that fails
without a response (timeout) issues a POST at time 10 (completing at
11), yet afterwards the recorded timestamp still holds its initial
value 0 — it was not updated after this failed attempt. -/
theorem c2_counterexample :
    (call_openrouter true ⟨10, 0⟩ [⟨.requestFailure, 1, 0⟩]).2.1 = [⟨10, false⟩] ∧
    (call_openrouter true ⟨10, 0⟩ [⟨.requestFailure, 1, 0⟩]).1.last = 0 ∧
    ¬((0 : ℚ) = 10 + 1) := by
  refine ⟨?_, rfl, by norm_num⟩
  show [(⟨max 10 (0 + OPENROUTER_MIN_INTERVAL), false⟩ : CallEvent)] = [⟨10, false⟩]
  rw [min_interval_eq]
  norm_num [max_def]

/-! ## C5: definitive enrichment failure -/

/-- Model of `json.loads` restricted to the inputs exercised by the
C5 evaluation: `json.loads("true")` succeeds and yields Python `True`
— a truthy non-dict value — while the other strings used below are
not valid JSON and raise `JSONDecodeError` (modelled as `none`). -/
def loadsC5 : String → Option PyVal := fun s =>
  if s = "true" then some (.nondict true) else none

def entryC5 : NewsEntry :=
  { title := "Breaking news"
    link := "https://example.com/n"
    published_at := some 3
    source := none
    description := "Original description." }

/-- Claim C5 (code bug): definitive failure — exhausted retries
(`response = none`) or an unparseable response text — indeed yields
`kept_original = true` with `translation` equal to the original
description and the fixed summary placeholder, with no exception; but
a remote response whose text parses as a truthy non-object JSON value
(e.g. the valid JSON text `"true"`) makes `data.get(...)` raise
`AttributeError`, which propagates out of `translate_and_summarize`
— contradicting the claim (and §7 of the spec) that such a response
is treated as a definitive failure with fallback. -/
theorem c5_nonobject_json_response_raises :
    translate_and_summarize loadsC5 id entryC5 (some "true") = .error .attributeError ∧
    translate_and_summarize loadsC5 id entryC5 (some "no json here") =
      .ok { entryC5 with
        translation := some "Original description."
        summary := some SUMMARY_PLACEHOLDER
        kept_original := true } ∧
    translate_and_summarize loadsC5 id entryC5 none =
      .ok { entryC5 with
        translation := some "Original description."
        summary := some SUMMARY_PLACEHOLDER
        kept_original := true } :=
  ⟨rfl, rfl, rfl⟩

end PushDigest
